import Mathlib

/-!
Verification of the xml-to-graph core: the format-directive compiler/printer
(`internal/graph/printer.go`) and the two streaming XML decoders
(`internal/graph/xml.go`).

Modelling conventions:
* Go strings are modelled as `List Char`; all inputs considered are ASCII, so
  Go's byte indexing and rune-based `strings.IndexFunc` coincide.
* `float64` values (node/edge costs, cost-function ratios) are modelled as `ℚ`
  with exact decimal parsing; none of the properties proved here depend on
  binary rounding of floats.
* The shortest-round-trip float formatter `strconv.AppendFloat(b, v, 'f', -1, 64)`
  is kept abstract: printing definitions take a formatting function
  `fmt : ℚ → String` as a parameter, and theorems hold for every such function.
* Writers (`bytes.Buffer`, `strings.Builder`) never fail in Go, so the writer
  is modelled as a `String` accumulator; every error path in the printer's
  operations propagates only writer errors, which therefore cannot occur.
-/

namespace XmlToGraph

/-! ## Data model (`graph.go`) -/

/-- `type Node struct { ID int; Cost float64 }`. -/
structure Node where
  ID : Int
  Cost : ℚ
deriving DecidableEq

/-- `type Edge struct { Cost float64; Directed directed; Src, Dst int }`. -/
structure Edge where
  Cost : ℚ
  Directed : Bool
  Src : Int
  Dst : Int
deriving DecidableEq

/-- `type Graph struct { Nodes []Node; Edges []Edge }`. -/
structure Graph where
  Nodes : List Node
  Edges : List Edge
deriving DecidableEq

/-! ## Numeric parsing (`strconv.Atoi`, `strconv.ParseFloat`)

`strconv.Atoi` accepts an optional sign followed by one or more ASCII digits
and nothing else.  `strconv.ParseFloat` (non-scientific decimal forms plus an
optional exponent) accepts an optional sign, a mantissa containing at least one
digit and at most one dot, and an optional exponent part; the special names
`inf`/`nan` are not modelled (they are unreachable from the ratio scanner and
absent from every document considered here).  Values are exact rationals. -/

def isDigitChar (c : Char) : Bool := '0' ≤ c && c ≤ '9'

def digitsToNat (ds : List Char) : Nat :=
  ds.foldl (fun a c => a * 10 + (c.toNat - '0'.toNat)) 0

def applyExponent (m : ℚ) : List Char → Option ℚ
  | [] => some m
  | e :: r =>
    if e = 'e' ∨ e = 'E' then
      let (es, r₁) : Int × List Char :=
        match r with
        | '+' :: t => (1, t)
        | '-' :: t => (-1, t)
        | t => (1, t)
      if r₁ ≠ [] ∧ r₁.all isDigitChar then
        some (m * (10 : ℚ) ^ (es * (digitsToNat r₁ : Int)))
      else none
    else none

def parseFloat (s : List Char) : Option ℚ :=
  let (sign, rest) : ℚ × List Char :=
    match s with
    | '+' :: r => (1, r)
    | '-' :: r => (-1, r)
    | r => (1, r)
  let intPart := rest.takeWhile isDigitChar
  let rest₁ := rest.dropWhile isDigitChar
  match rest₁ with
  | '.' :: r₂ =>
    let fracPart := r₂.takeWhile isDigitChar
    let rest₂ := r₂.dropWhile isDigitChar
    if intPart = [] ∧ fracPart = [] then none
    else
      applyExponent
        (sign * ((digitsToNat intPart : ℚ) +
          (digitsToNat fracPart : ℚ) / (10 : ℚ) ^ fracPart.length)) rest₂
  | _ =>
    if intPart = [] then none
    else applyExponent (sign * (digitsToNat intPart : ℚ)) rest₁

def atoi (s : List Char) : Option Int :=
  let (sign, rest) : Int × List Char :=
    match s with
    | '+' :: r => (1, r)
    | '-' :: r => (-1, r)
    | r => (1, r)
  if rest ≠ [] ∧ rest.all isDigitChar then some (sign * (digitsToNat rest : Int))
  else none

/-! ## Cost functions (`printer.go`, `costFunction`) -/

/-- The four rounding modes `X` (none), `F` (`math.Floor`), `R` (`math.Round`,
half away from zero), `C` (`math.Ceil`). -/
inductive RoundingMode
  | noop
  | floorMode
  | nearest
  | ceilMode
deriving DecidableEq

def applyRounding : RoundingMode → ℚ → ℚ
  | .noop, v => v
  | .floorMode, v => (⌊v⌋ : ℚ)
  | .nearest, v => if 0 ≤ v then (⌊v + 1/2⌋ : ℚ) else -(⌊-v + 1/2⌋ : ℚ)
  | .ceilMode, v => (⌈v⌉ : ℚ)

/-- `type costFunction struct { ratio float64; round func(float64) float64 }`. -/
structure costFunction where
  ratio : ℚ
  round : RoundingMode
deriving DecidableEq

/-- `func (c costFunction) Cost(v float64) float64 { return c.round(v * c.ratio) }`. -/
def costFunction.Cost (c : costFunction) (v : ℚ) : ℚ :=
  applyRounding c.round (v * c.ratio)

/-! ## The compiled operations (`printer.go`, `operation`) -/

/-- The closed set of operations a format string compiles to: literal text,
`verticesCountOperation`, `edgesCountOperation`, `adjacencyMatrixOperation`,
`costsOperation`, `verticesOperation` and `edgesOperation` (the latter two
with their `prefixCost` flag, named `costBefore` here, and optional
cost function). -/
inductive Operation
  | text (s : List Char)
  | verticesCount
  | edgesCount
  | adjacencyMatrix
  | costs (fn : costFunction)
  | vertices (costBefore : Bool) (cost : Option costFunction)
  | edges (costBefore : Bool) (cost : Option costFunction)
deriving DecidableEq

/-- `type ParsePrinterError struct { Reason error; Format string; Explanation string }`. -/
structure ParsePrinterError where
  Reason : Option String
  Format : List Char
  Explanation : String
deriving DecidableEq

/-! ## The cost-function fragment scanner (`parseCostFunction`) -/

/-- The predicate given to `strings.IndexFunc` in `parseCostFunction`:
`func(r rune) bool { return (r <= '0' || r >= '9') && r != '.' }`.
Note that it is true of the digits `'0'` and `'9'` themselves. -/
def ratioScanStop (r : Char) : Bool := (r ≤ '0' || r ≥ '9') && r ≠ '.'

/-- `parseCostFunction` from `printer.go`.  Returns `none` for "no cost
function present" (Go's `nil, 0, nil`), otherwise the function and the number
of characters consumed. -/
def parseCostFunction (s : List Char) :
    Except ParsePrinterError (Option costFunction × Nat) :=
  let iOpt := s.findIdx? ratioScanStop
  let i := iOpt.getD s.length
  let advance := match iOpt with | none => s.length | some j => j + 1
  let ratioStr := s.take i
  let parsedRatio : Except ParsePrinterError ℚ :=
    if ratioStr = [] then .ok 1
    else
      match parseFloat ratioStr with
      | some q => .ok q
      | none => .error ⟨some "invalid syntax", s, "invalid cost ratio"⟩
  match parsedRatio with
  | .error e => .error e
  | .ok r =>
    let fn : costFunction := ⟨r, .noop⟩
    match s.get? i with
    | none => .ok (some fn, advance)
    | some c =>
      if c = 'X' then .ok (some fn, advance)
      else if c = 'F' then .ok (some { fn with round := .floorMode }, advance)
      else if c = 'R' then .ok (some { fn with round := .nearest }, advance)
      else if c = 'C' then .ok (some { fn with round := .ceilMode }, advance)
      else if advance - 1 = 0 then .ok (none, 0)
      else .ok (some fn, advance - 1)

/-! ## Directive parsing (`parseArg`, `ParsePrinter`) -/

/-- `parseArg` from `printer.go`: dispatch on the character after a `%`
marker.  `parseCostFunction` always consumes at most `text.length`
characters, so the bounds check below agrees with Go's
`advance == len(text)` test. -/
def parseArg (text : List Char) : Except ParsePrinterError (Operation × Nat) :=
  match text with
  | [] => .error ⟨none, [], "unexpected end"⟩
  | c :: _ =>
    if c = '%' then .ok (.text ['%'], 1)
    else if c = 'n' then .ok (.verticesCount, 1)
    else if c = 'm' then .ok (.edgesCount, 1)
    else if c = 'a' then .ok (.adjacencyMatrix, 1)
    else
      match parseCostFunction text with
      | .error e => .error e
      | .ok (costFn, advance) =>
        if h : advance < text.length then
          let v := text.get ⟨advance, h⟩
          if v = 'w' then .ok (.costs (costFn.getD ⟨1, .noop⟩), advance + 1)
          else if v = 'N' then .ok (.vertices false costFn, advance + 1)
          else if v = 'M' then .ok (.edges false costFn, advance + 1)
          else .error ⟨none, text, "invalid verb \"" ++ v.toString ++ "\""⟩
        else .error ⟨none, text, "missing verb"⟩

/-- The scanning loop of `ParsePrinter`: `strings.IndexByte(format, '%')`
splits the format at the first marker, which is the `takeWhile`/`dropWhile`
split below; text before the marker becomes a literal operation.  Every
iteration consumes at least one character (the marker), so the loop runs at
most `format.length` times; the structural `fuel` argument only bounds the
iteration count and `ParsePrinter` supplies `format.length + 1`, which can
never be exhausted. -/
def parsePrinterLoop (fuel : Nat) (format : List Char) :
    Except ParsePrinterError (List Operation) :=
  match fuel with
  | 0 => .error ⟨none, [], "unreachable: iteration bound exhausted"⟩
  | fuel + 1 =>
    let text := format.takeWhile (· ≠ '%')
    let rest := format.dropWhile (· ≠ '%')
    let textOps : List Operation := if text = [] then [] else [.text text]
    match rest with
    | [] => .ok textOps
    | _ :: afterMarker =>
      match parseArg afterMarker with
      | .error e => .error e
      | .ok (op, advance) =>
        match parsePrinterLoop fuel (afterMarker.drop advance) with
        | .error e => .error e
        | .ok ops => .ok (textOps ++ op :: ops)

/-- `ParsePrinter` from `printer.go`: the empty format string is rejected,
otherwise the scanning loop produces the operation list. -/
def ParsePrinter (format : List Char) :
    Except ParsePrinterError (List Operation) :=
  if format = [] then .error ⟨none, [], "required to be non-empty"⟩
  else parsePrinterLoop (format.length + 1) format

/-! ## Applying operations (`printer.go`, the `apply` methods)

Each operation writes separator-joined items: the loops write the separator
before every item except the first, which is the recursion in `joinSep`. -/

def joinSep (sep : String) : List String → String
  | [] => ""
  | [x] => x
  | x :: y :: xs => x ++ sep ++ joinSep sep (y :: xs)

/-- The adjacency test of `adjacencyMatrixOperation`: the inner loop over
`g.Edges` looking for `(e.Src == a.ID && e.Dst == b.ID) ||
(!e.Directed && e.Src == b.ID && e.Dst == a.ID)`. -/
def edgeConnects (a b : Node) (e : Edge) : Bool :=
  (e.Src == a.ID && e.Dst == b.ID) || (!e.Directed && e.Src == b.ID && e.Dst == a.ID)

/-- One cell of the adjacency matrix: `0` on the diagonal test
`a.ID == b.ID`, otherwise `1` iff some edge connects `a` and `b`. -/
def adjacencyCell (g : Graph) (a b : Node) : String :=
  if a.ID == b.ID then "0"
  else if g.Edges.any (edgeConnects a b) then "1" else "0"

/-- `adjacencyMatrixOperation`: rows joined by newlines, cells joined by
spaces, both loops over `g.Nodes` in input order. -/
def adjacencyMatrixOutput (g : Graph) : String :=
  joinSep "\n" (g.Nodes.map fun a => joinSep " " (g.Nodes.map fun b => adjacencyCell g a b))

/-- One line of `verticesOperation.apply`: `writeCost`/`writeVertex` in the
order selected by `prefixCost`; with no cost function, `writeCost` writes
nothing and `writeVertex` writes no space. -/
def vertexLine (fmt : ℚ → String) (costBefore : Bool) (cost : Option costFunction)
    (nd : Node) : String :=
  match cost with
  | none => toString nd.ID
  | some fn =>
    if costBefore then fmt (fn.Cost nd.Cost) ++ " " ++ toString nd.ID
    else toString nd.ID ++ " " ++ fmt (fn.Cost nd.Cost)

def verticesOutput (fmt : ℚ → String) (costBefore : Bool) (cost : Option costFunction)
    (g : Graph) : String :=
  joinSep "\n" (g.Nodes.map (vertexLine fmt costBefore cost))

/-- One line of `edgesOperation.apply`: `Src` and `Dst` separated by a space,
with the optional cost placed by `prefixCost`. -/
def edgeLine (fmt : ℚ → String) (costBefore : Bool) (cost : Option costFunction)
    (e : Edge) : String :=
  match cost with
  | none => toString e.Src ++ " " ++ toString e.Dst
  | some fn =>
    if costBefore then fmt (fn.Cost e.Cost) ++ " " ++ toString e.Src ++ " " ++ toString e.Dst
    else toString e.Src ++ " " ++ toString e.Dst ++ " " ++ fmt (fn.Cost e.Cost)

def edgesOutput (fmt : ℚ → String) (costBefore : Bool) (cost : Option costFunction)
    (g : Graph) : String :=
  joinSep "\n" (g.Edges.map (edgeLine fmt costBefore cost))

/-- `costsOperation.apply`: every node's transformed cost, space-separated. -/
def costsOutput (fmt : ℚ → String) (fn : costFunction) (g : Graph) : String :=
  joinSep " " (g.Nodes.map fun nd => fmt (fn.Cost nd.Cost))

/-- `op.apply(w, g)` for each operation, as the string it writes. -/
def applyOperation (fmt : ℚ → String) (g : Graph) : Operation → String
  | .text s => String.mk s
  | .verticesCount => toString (g.Nodes.length : Int)
  | .edgesCount => toString (g.Edges.length : Int)
  | .adjacencyMatrix => adjacencyMatrixOutput g
  | .costs fn => costsOutput fmt fn g
  | .vertices cb c => verticesOutput fmt cb c g
  | .edges cb c => edgesOutput fmt cb c g

/-- `Printer.Print`: apply each operation in order, appending to the sink. -/
def Print (fmt : ℚ → String) (ops : List Operation) (g : Graph) (sink : String) : String :=
  ops.foldl (fun acc op => acc ++ applyOperation fmt g op) sink

/-! ## The buffer pool (`Printer.getWriter`)

`sync.Pool` is modelled from its documented semantics: `Get` removes and
returns an arbitrary pooled value, or a fresh one when the pool is empty;
`Put` adds a value to the pool.  The model uses a stack of buffer ids plus a
counter for fresh ids — returning the most recently `Put` value is one of the
behaviours `sync.Pool` permits.  `getWriter` is translated from the source:
it `Get`s a `bufio.Writer`, *defers `Put` to the end of `getWriter` itself*
(so the `Put` runs before `getWriter` returns), resets the buffer and
returns it. -/

abbrev PoolState : Type := List Nat × Nat

def poolGet : PoolState → Nat × PoolState
  | ([], fresh) => (fresh, ([], fresh + 1))
  | (b :: rest, fresh) => (b, (rest, fresh))

def poolPut (p : PoolState) (b : Nat) : PoolState := (b :: p.1, p.2)

/-- `Printer.getWriter` on the pooled path (`io.Writer`s other than
`bytes.Buffer`, `strings.Builder`, `bufio.Writer`): `bw := p.bwp.Get()`,
`defer p.bwp.Put(bw)`, `bw.Reset(w)`, `return bw`.  The deferred `Put`
executes when `getWriter` returns, which is before `Print` writes anything. -/
def getWriter (p : PoolState) : Nat × PoolState :=
  let (bw, p₁) := poolGet p
  (bw, poolPut p₁ bw)

/-! ## XML documents (`xml.go`)

Both decoders consume the same bytes.  Well-formed documents are abstracted
as forests of element/text trees; `encoding/xml.Decoder.RawToken` yields the
start/character-data/end token walk of that forest, and the streaming reader
of `FromXMLNoStd` (`github.com/tamerh/xml-stream-parser` with loop elements
`"node"` and `"edge"`) yields every element named `node` or `edge` in
document order together with its attributes, immediate children and inner
text. -/

inductive XMLTree
  | elem (name : String) (attrs : List (String × String)) (children : List XMLTree)
  | text (s : String)

inductive XMLTok
  | start (name : String) (attrs : List (String × String))
  | cdata (s : String)
  | close (name : String)
deriving DecidableEq

mutual

/-- The raw-token walk of one tree. -/
def tokensOfTree : XMLTree → List XMLTok
  | .elem n a cs => .start n a :: tokensOfForest cs ++ [.close n]
  | .text s => [.cdata s]

/-- The raw-token walk of a forest, in document order. -/
def tokensOfForest : List XMLTree → List XMLTok
  | [] => []
  | t :: ts => tokensOfTree t ++ tokensOfForest ts

end

mutual

/-- The elements the streaming parser matches: any element named `node` or
`edge`, in document order; the parser consumes a matched element whole, so it
does not descend into one. -/
def streamTree : XMLTree → List XMLTree
  | .elem n a cs => if n == "node" || n == "edge" then [.elem n a cs] else streamForest cs
  | .text _ => []

def streamForest : List XMLTree → List XMLTree
  | [] => []
  | t :: ts => streamTree t ++ streamForest ts

end

mutual

/-- `XMLElement.InnerText`: the concatenated text content of an element. -/
def innerText : XMLTree → String
  | .elem _ _ cs => innerTextForest cs
  | .text s => s

def innerTextForest : List XMLTree → String
  | [] => ""
  | t :: ts => innerText t ++ innerTextForest ts

end

/-- `findAttribute(attrs, attr)`: the first attribute with the given name. -/
def findAttribute (attrs : List (String × String)) (attr : String) : Option String :=
  (attrs.find? fun a => a.1 == attr).map (·.2)

/-- Indexing the streaming parser's `e.Attrs` map: a missing key yields the
empty string, as Go map indexing does. -/
def attrLookup (attrs : List (String × String)) (k : String) : String :=
  (findAttribute attrs k).getD ""

/-- `children[name]` on the streaming parser's `e.Childs` map followed by
`getChild`: the first immediate child *element* with the given name. -/
def getChild (children : List XMLTree) (name : String) : Option XMLTree :=
  children.find? fun c =>
    match c with
    | .elem n _ _ => n == name
    | .text _ => false

/-- `strings.TrimSpace`'s notion of white space (`unicode.IsSpace`). -/
def isGoSpace (c : Char) : Bool :=
  c == ' ' || c == '\t' || c == '\n' || c.toNat == 11 || c.toNat == 12 || c == '\r' ||
  c.toNat == 0x85 || c.toNat == 0xA0 || c.toNat == 0x1680 ||
  (0x2000 ≤ c.toNat && c.toNat ≤ 0x200A) ||
  c.toNat == 0x2028 || c.toNat == 0x2029 || c.toNat == 0x202F ||
  c.toNat == 0x205F || c.toNat == 0x3000

/-- `strings.TrimSpace`: drop white space from both ends. -/
def trimSpace (s : List Char) : List Char :=
  ((s.dropWhile isGoSpace).reverse.dropWhile isGoSpace).reverse

/-- The decode errors of `xml.go`, one per distinct failure return. -/
inductive DecodeError
  | truncated
  | nodeNoID
  | nodeInvalidID
  | nodeInvalidCost
  | edgeInvalidCost
  | edgeInvalidSrcDst
  | edgeMissingSrcDst
deriving DecidableEq

/-! ### The conservative decoder `FromXML` (raw-token walk) -/

/-- The token loop of `Node.unmarshalXML`: depth-tracked search for the
character data of a `cost` element immediately inside the node.  Returns the
decoded node (or the first error) together with the unconsumed tokens. -/
def nodeLoop (nd : Node) (inCost : Bool) (depth : Int) :
    List XMLTok → (Except DecodeError Node) × List XMLTok
  | [] => (.error .truncated, [])
  | tok :: rest =>
    match tok with
    | .start name _ => nodeLoop nd (name == "cost" && depth + 1 == 1) (depth + 1) rest
    | .cdata s =>
      if inCost then
        match parseFloat (trimSpace s.toList) with
        | none => (.error .nodeInvalidCost, rest)
        | some c => nodeLoop { nd with Cost := c } false depth rest
      else nodeLoop nd inCost depth rest
    | .close name =>
      if name == "node" && depth - 1 == -1 then (.ok nd, rest)
      else nodeLoop nd inCost (depth - 1) rest

/-- `Node.unmarshalXML`: the `id` attribute is mandatory and must be an
integer; then the token loop runs until the node's end element. -/
def nodeUnmarshalXML (attrs : List (String × String)) (toks : List XMLTok) :
    (Except DecodeError Node) × List XMLTok :=
  match findAttribute attrs "id" with
  | none => (.error .nodeNoID, toks)
  | some v =>
    match atoi v.toList with
    | none => (.error .nodeInvalidID, toks)
    | some id => nodeLoop ⟨id, 0⟩ false 0 toks

/-- The token loop of `Edge.unmarshalXML`: depth-tracked flags for `cost`,
`source` and `target` children; character data inside them is trimmed and
parsed.  Missing children are never detected — the fields keep their zero
values. -/
def edgeLoop (e : Edge) (inCost inSrc inDst : Bool) (depth : Int) :
    List XMLTok → (Except DecodeError Edge) × List XMLTok
  | [] => (.error .truncated, [])
  | tok :: rest =>
    match tok with
    | .start name _ =>
      if depth + 1 > 1 then edgeLoop e inCost inSrc inDst (depth + 1) rest
      else edgeLoop e (name == "cost") (name == "source") (name == "target") (depth + 1) rest
    | .cdata s =>
      if inCost then
        match parseFloat (trimSpace s.toList) with
        | none => (.error .edgeInvalidCost, rest)
        | some c => edgeLoop { e with Cost := c } false inSrc inDst depth rest
      else if inSrc || inDst then
        match atoi (trimSpace s.toList) with
        | none => (.error .edgeInvalidSrcDst, rest)
        | some v =>
          if inSrc then edgeLoop { e with Src := v } inCost false inDst depth rest
          else edgeLoop { e with Dst := v } inCost inSrc false depth rest
      else edgeLoop e inCost inSrc inDst depth rest
    | .close name =>
      if name == "edge" && depth - 1 == -1 then (.ok e, rest)
      else edgeLoop e inCost inSrc inDst (depth - 1) rest

/-- `Edge.unmarshalXML`: the optional `directed` attribute, then the token
loop until the edge's end element. -/
def edgeUnmarshalXML (attrs : List (String × String)) (toks : List XMLTok) :
    (Except DecodeError Edge) × List XMLTok :=
  let dir :=
    match findAttribute attrs "directed" with
    | some v => v == "yes"
    | none => false
  edgeLoop ⟨0, dir, 0, 0⟩ false false false 0 toks

theorem nodeLoop_rest_le (toks : List XMLTok) :
    ∀ nd ic d, ((nodeLoop nd ic d toks).2).length ≤ toks.length := by
  induction toks with
  | nil => intro nd ic d; simp [nodeLoop]
  | cons tok rest ih =>
    intro nd ic d
    cases tok with
    | start name attrs =>
      simpa [nodeLoop] using Nat.le_succ_of_le (ih ..)
    | cdata s =>
      simp only [nodeLoop]
      split
      · cases hp : parseFloat (trimSpace s.toList) with
        | none => simp
        | some c => simpa using Nat.le_succ_of_le (ih ..)
      · simpa using Nat.le_succ_of_le (ih ..)
    | close name =>
      simp only [nodeLoop]
      split
      · simp
      · simpa using Nat.le_succ_of_le (ih ..)

theorem edgeLoop_rest_le (toks : List XMLTok) :
    ∀ e ic is idt d, ((edgeLoop e ic is idt d toks).2).length ≤ toks.length := by
  induction toks with
  | nil => intro e ic is idt d; simp [edgeLoop]
  | cons tok rest ih =>
    intro e ic is idt d
    cases tok with
    | start name attrs =>
      simp only [edgeLoop]
      split
      · simpa using Nat.le_succ_of_le (ih ..)
      · simpa using Nat.le_succ_of_le (ih ..)
    | cdata s =>
      simp only [edgeLoop]
      split
      · cases hp : parseFloat (trimSpace s.toList) with
        | none => simp
        | some c => simpa using Nat.le_succ_of_le (ih ..)
      · split
        · cases hp : atoi (trimSpace s.toList) with
          | none => simp
          | some v =>
            simp only
            split
            · simpa using Nat.le_succ_of_le (ih ..)
            · simpa using Nat.le_succ_of_le (ih ..)
        · simpa using Nat.le_succ_of_le (ih ..)
    | close name =>
      simp only [edgeLoop]
      split
      · simp
      · simpa using Nat.le_succ_of_le (ih ..)

theorem nodeUnmarshalXML_rest_le (attrs : List (String × String)) (toks : List XMLTok) :
    ((nodeUnmarshalXML attrs toks).2).length ≤ toks.length := by
  unfold nodeUnmarshalXML
  cases hf : findAttribute attrs "id" with
  | none => simp
  | some v =>
    cases ha : atoi v.data with
    | none => simp [String.toList, ha]
    | some id =>
      simp only [String.toList, ha]
      exact nodeLoop_rest_le toks ..

theorem edgeUnmarshalXML_rest_le (attrs : List (String × String)) (toks : List XMLTok) :
    ((edgeUnmarshalXML attrs toks).2).length ≤ toks.length := by
  unfold edgeUnmarshalXML
  simpa using edgeLoop_rest_le toks ..

/-- The main loop of `FromXML`: walk the raw tokens; dispatch on start
elements named `node` or `edge`, skip everything else; an element error
abandons the whole decode, returning the empty graph; end of input returns
the accumulated graph.  Each iteration consumes at least one token and the
unmarshal calls never lengthen the remainder (`nodeUnmarshalXML_rest_le`,
`edgeUnmarshalXML_rest_le`), so the structural `fuel` bound of
`toks.length + 1` supplied by `FromXML` can never be exhausted. -/
def fromXMLLoop (fuel : Nat) (g : Graph) (toks : List XMLTok) :
    Graph × Option DecodeError :=
  match fuel with
  | 0 => (⟨[], []⟩, some .truncated)
  | fuel + 1 =>
    match toks with
    | [] => (g, none)
    | .start name attrs :: rest =>
      if name == "node" then
        match nodeUnmarshalXML attrs rest with
        | (.error e, _) => (⟨[], []⟩, some e)
        | (.ok nd, rest') => fromXMLLoop fuel { g with Nodes := g.Nodes ++ [nd] } rest'
      else if name == "edge" then
        match edgeUnmarshalXML attrs rest with
        | (.error e, _) => (⟨[], []⟩, some e)
        | (.ok ed, rest') => fromXMLLoop fuel { g with Edges := g.Edges ++ [ed] } rest'
      else fromXMLLoop fuel g rest
    | _ :: rest => fromXMLLoop fuel g rest

/-- `FromXML`: the conservative decoder, on the raw-token walk of a
well-formed document. -/
def FromXML (doc : List XMLTree) : Graph × Option DecodeError :=
  fromXMLLoop ((tokensOfForest doc).length + 1) ⟨[], []⟩ (tokensOfForest doc)

/-! ### The streaming decoder `FromXMLNoStd` -/

/-- The `for e := range p.Stream()` loop of `FromXMLNoStd` over matched
elements: a node's `id` must be an integer (a missing attribute indexes to
`""`, which fails); an edge must have `source` and `target` children with
integer inner text; `cost` children are optional; any failure abandons the
whole decode with the empty graph. -/
def fromXMLNoStdLoop (g : Graph) : List XMLTree → Graph × Option DecodeError
  | [] => (g, none)
  | t :: rest =>
    match t with
    | .elem name attrs cs =>
      if name == "node" then
        match atoi (attrLookup attrs "id").toList with
        | none => (⟨[], []⟩, some .nodeInvalidID)
        | some id =>
          match getChild cs "cost" with
          | none => fromXMLNoStdLoop { g with Nodes := g.Nodes ++ [⟨id, 0⟩] } rest
          | some c =>
            match parseFloat (innerText c).toList with
            | none => (⟨[], []⟩, some .nodeInvalidCost)
            | some cost => fromXMLNoStdLoop { g with Nodes := g.Nodes ++ [⟨id, cost⟩] } rest
      else if name == "edge" then
        let dir := attrLookup attrs "directed" == "yes"
        match getChild cs "source", getChild cs "target" with
        | none, _ => (⟨[], []⟩, some .edgeMissingSrcDst)
        | some _, none => (⟨[], []⟩, some .edgeMissingSrcDst)
        | some src, some dst =>
          match atoi (innerText src).toList with
          | none => (⟨[], []⟩, some .edgeInvalidSrcDst)
          | some sv =>
            match atoi (innerText dst).toList with
            | none => (⟨[], []⟩, some .edgeInvalidSrcDst)
            | some dv =>
              match getChild cs "cost" with
              | none => fromXMLNoStdLoop { g with Edges := g.Edges ++ [⟨0, dir, sv, dv⟩] } rest
              | some c =>
                match parseFloat (innerText c).toList with
                | none => (⟨[], []⟩, some .edgeInvalidCost)
                | some cost =>
                  fromXMLNoStdLoop { g with Edges := g.Edges ++ [⟨cost, dir, sv, dv⟩] } rest
      else fromXMLNoStdLoop g rest
    | .text _ => fromXMLNoStdLoop g rest

/-- `FromXMLNoStd`: the streaming decoder, on the matched-element stream of a
well-formed document. -/
def FromXMLNoStd (doc : List XMLTree) : Graph × Option DecodeError :=
  fromXMLNoStdLoop ⟨[], []⟩ (streamForest doc)

/-! ## Concrete documents used in the theorems -/

/-- `<node id="3"><cost>10</cost></node>` — the spec's cross-strategy
example. -/
def nodeExampleDoc : List XMLTree :=
  [.elem "node" [("id", "3")] [.elem "cost" [] [.text "10"]]]

/-- `<edge></edge>` — an edge element with no children at all. -/
def edgeEmptyDoc : List XMLTree := [.elem "edge" [] []]

/-- `<edge><source>1</source></edge>` — an edge element missing its
`target` child. -/
def edgeMissingTargetDoc : List XMLTree :=
  [.elem "edge" [] [.elem "source" [] [.text "1"]]]

/-- A document whose numeric character data is padded with the white space
`ws₁` on the left and `ws₂` on the right:
`<node id="3"><cost>{ws₁}10{ws₂}</cost></node>` followed by
`<edge><source>{ws₁}1{ws₂}</source><target>{ws₁}2{ws₂}</target><cost>{ws₁}5{ws₂}</cost></edge>`. -/
def paddedDoc (ws₁ ws₂ : List Char) : List XMLTree :=
  [.elem "node" [("id", "3")] [.elem "cost" [] [.text (String.mk (ws₁ ++ ['1', '0'] ++ ws₂))]],
   .elem "edge" [] [.elem "source" [] [.text (String.mk (ws₁ ++ ['1'] ++ ws₂))],
                    .elem "target" [] [.text (String.mk (ws₁ ++ ['2'] ++ ws₂))],
                    .elem "cost" [] [.text (String.mk (ws₁ ++ ['5'] ++ ws₂))]]]

/-! ## Claim-side definitions

These re-state spec sentences in the spec's own terms, for comparison with
the definitions translated from the source. -/

/-- The adjacency-matrix cell as the claim words it, indexed by node input
positions `i` and `j`: `0` on the diagonal, otherwise `1` exactly when some
edge has source `i` and target `j`, or is undirected with source `j` and
target `i`. -/
def claimAdjacencyCell (g : Graph) (i j : Nat) : String :=
  let a := g.Nodes.getD i ⟨0, 0⟩
  let b := g.Nodes.getD j ⟨0, 0⟩
  if i = j then "0"
  else if g.Edges.any
      (fun e => (e.Src == a.ID && e.Dst == b.ID)
        || (!e.Directed && e.Src == b.ID && e.Dst == a.ID))
    then "1" else "0"

/-- The claim's matrix: an N×N grid with rows and columns both in node input
order, rows separated by newlines and cells by spaces. -/
def claimAdjacencyMatrix (g : Graph) : String :=
  joinSep "\n" ((List.range g.Nodes.length).map fun i =>
    joinSep " " ((List.range g.Nodes.length).map fun j => claimAdjacencyCell g i j))

/-- The spec's adjacency example: nodes `[1,2,3]`, undirected edges
`(1,2)`, `(1,3)`, `(2,3)`. -/
def gSpecExample : Graph :=
  ⟨[⟨1, 0⟩, ⟨2, 0⟩, ⟨3, 0⟩],
   [⟨0, false, 1, 2⟩, ⟨0, false, 1, 3⟩, ⟨0, false, 2, 3⟩]⟩

/-! ## Helper lemmas -/

theorem Print_sink_append (fmt : ℚ → String) (g : Graph) :
    ∀ (ops : List Operation) (s : String), Print fmt ops g s = s ++ Print fmt ops g "" := by
  intro ops
  induction ops with
  | nil => intro s; simp [Print]
  | cons op ops ih =>
    intro s
    show Print fmt ops g (s ++ applyOperation fmt g op)
      = s ++ Print fmt ops g ("" ++ applyOperation fmt g op)
    rw [ih (s ++ applyOperation fmt g op), ih ("" ++ applyOperation fmt g op)]
    simp [String.append_assoc]

theorem map_eq_range_map_getD {α β : Type} (d : α) (f : α → β) :
    ∀ l : List α, l.map f = (List.range l.length).map fun i => f (l.getD i d) := by
  intro l
  induction l with
  | nil => rfl
  | cons a t ih =>
    simp only [List.length_cons, List.range_succ_eq_map, List.map_cons, List.getD_cons_zero,
      List.map_map, List.cons.injEq, true_and]
    rw [ih]
    exact List.map_congr_left fun i _ => by simp [Function.comp, List.getD_cons_succ]

theorem dropWhile_append_all {p : Char → Bool} :
    ∀ l₁ l₂ : List Char, (∀ c ∈ l₁, p c = true) →
      (l₁ ++ l₂).dropWhile p = l₂.dropWhile p := by
  intro l₁
  induction l₁ with
  | nil => intro l₂ _; rfl
  | cons a t ih =>
    intro l₂ hall
    rw [List.cons_append, List.dropWhile_cons, if_pos (hall a (by simp))]
    exact ih l₂ fun c hc => hall c (by simp [hc])

/-- Trimming white-space padding from both ends of a token whose first and
last characters are not white space recovers the token. -/
theorem trimSpace_pad (core ws₁ ws₂ : List Char)
    (h₁ : ∀ c ∈ ws₁, isGoSpace c = true) (h₂ : ∀ c ∈ ws₂, isGoSpace c = true)
    (hhead : ∃ c t, core = c :: t ∧ isGoSpace c = false)
    (hlast : ∃ c t, core.reverse = c :: t ∧ isGoSpace c = false) :
    trimSpace (ws₁ ++ core ++ ws₂) = core := by
  obtain ⟨c, t, hcore, hc⟩ := hhead
  obtain ⟨c', t', hrev, hc'⟩ := hlast
  unfold trimSpace
  rw [List.append_assoc, dropWhile_append_all ws₁ (core ++ ws₂) h₁, hcore, List.cons_append,
    List.dropWhile_cons, if_neg (by simp [hc])]
  have hr : (c :: (t ++ ws₂)).reverse = ws₂.reverse ++ (c' :: t') := by
    rw [← hrev, ← List.cons_append, List.reverse_append, hcore]
  rw [hr, dropWhile_append_all ws₂.reverse (c' :: t')
      (fun x hx => h₂ x (List.mem_reverse.mp hx)),
    List.dropWhile_cons, if_neg (by simp [hc']), ← hrev, List.reverse_reverse]
  exact hcore

theorem fromXMLLoopNodeStep (fuel : Nat) (g : Graph) (attrs : List (String × String))
    (rest rest' : List XMLTok) (nd : Node)
    (h : nodeUnmarshalXML attrs rest = (.ok nd, rest')) :
    fromXMLLoop (fuel + 1) g (.start "node" attrs :: rest)
      = fromXMLLoop fuel { g with Nodes := g.Nodes ++ [nd] } rest' := by
  simp [fromXMLLoop, h]

theorem fromXMLLoopEdgeStep (fuel : Nat) (g : Graph) (attrs : List (String × String))
    (rest rest' : List XMLTok) (ed : Edge)
    (h : edgeUnmarshalXML attrs rest = (.ok ed, rest')) :
    fromXMLLoop (fuel + 1) g (.start "edge" attrs :: rest)
      = fromXMLLoop fuel { g with Edges := g.Edges ++ [ed] } rest' := by
  simp [fromXMLLoop, h]

theorem nodeUnmarshalXML_id3 (toks : List XMLTok) :
    nodeUnmarshalXML [("id", "3")] toks = nodeLoop ⟨3, 0⟩ false 0 toks := rfl

theorem edgeUnmarshalXML_noAttrs (toks : List XMLTok) :
    edgeUnmarshalXML [] toks = edgeLoop ⟨0, false, 0, 0⟩ false false false 0 toks := rfl

/-- Walking the tokens of `<cost>s</cost></node>` inside a node whose id is
3: the character data of the cost child is trimmed and parsed. -/
theorem nodeLoopPadEval (s : String) (rest : List XMLTok)
    (hs : parseFloat (trimSpace s.data) = some 10) :
    nodeLoop ⟨3, 0⟩ false 0
      (.start "cost" [] :: .cdata s :: .close "cost" :: .close "node" :: rest)
      = (.ok ⟨3, 10⟩, rest) := by
  simp [nodeLoop, hs]

/-- Walking the tokens of `<source>s₂</source><target>s₃</target>`
`<cost>s₄</cost></edge>` inside an edge: all three texts are trimmed and
parsed. -/
theorem edgeLoopPadEval (s₂ s₃ s₄ : String) (rest : List XMLTok)
    (h₂ : atoi (trimSpace s₂.data) = some 1)
    (h₃ : atoi (trimSpace s₃.data) = some 2)
    (h₄ : parseFloat (trimSpace s₄.data) = some 5) :
    edgeLoop ⟨0, false, 0, 0⟩ false false false 0
      (.start "source" [] :: .cdata s₂ :: .close "source" ::
       .start "target" [] :: .cdata s₃ :: .close "target" ::
       .start "cost" [] :: .cdata s₄ :: .close "cost" :: .close "edge" :: rest)
      = (.ok ⟨5, false, 1, 2⟩, rest) := by
  simp [edgeLoop, h₂, h₃, h₄]

/-- Full raw-token decode of the two-element padded document, given that its
four padded texts trim and parse to the expected numbers. -/
theorem fromXMLPadEval (s₁ s₂ s₃ s₄ : String)
    (k₁ : parseFloat (trimSpace s₁.data) = some 10)
    (k₂ : atoi (trimSpace s₂.data) = some 1)
    (k₃ : atoi (trimSpace s₃.data) = some 2)
    (k₄ : parseFloat (trimSpace s₄.data) = some 5) :
    fromXMLLoop 17 ⟨[], []⟩
      [.start "node" [("id", "3")], .start "cost" [], .cdata s₁, .close "cost", .close "node",
       .start "edge" [], .start "source" [], .cdata s₂, .close "source",
       .start "target" [], .cdata s₃, .close "target",
       .start "cost" [], .cdata s₄, .close "cost", .close "edge"]
      = (⟨[⟨3, 10⟩], [⟨5, false, 1, 2⟩]⟩, none) := by
  rw [fromXMLLoopNodeStep 16 ⟨[], []⟩ [("id", "3")] _ _ ⟨3, 10⟩
      (by rw [nodeUnmarshalXML_id3]; exact nodeLoopPadEval s₁ _ k₁)]
  show fromXMLLoop 16 ⟨[⟨3, 10⟩], []⟩
      (.start "edge" [] :: .start "source" [] :: .cdata s₂ :: .close "source" ::
       .start "target" [] :: .cdata s₃ :: .close "target" ::
       .start "cost" [] :: .cdata s₄ :: .close "cost" :: .close "edge" :: []) = _
  rw [fromXMLLoopEdgeStep 15 ⟨[⟨3, 10⟩], []⟩ [] _ _ ⟨5, false, 1, 2⟩
      (by rw [edgeUnmarshalXML_noAttrs]; exact edgeLoopPadEval s₂ s₃ s₄ _ k₂ k₃ k₄)]
  rfl

/-! ## Claim theorems -/

/-- C1: the claim states that the ratio scanner consumes every leading run of
ASCII digits and dots, so that e.g. `%0.6w` and `%10w` compile to ratios 0.6
and 10.  The code's scan predicate `(r <= '0' || r >= '9') && r != '.'` is
true of the digits `'0'` and `'9'`, so the scan stops at them: `%0.6w` and
`%10w` are rejected with an "invalid verb \"0\"" error, contradicting the
claim and `ParsePrinter`'s own documentation (which lists `10` and `0.6` as
valid ratios).  Ratios avoiding the digits 0 and 9 still work: `%.5w`
compiles to ratio 1/2. -/
theorem ratioScan_rejects_documented_ratios :
    ParsePrinter ("%0.6w".toList) = .error ⟨none, "0.6w".toList, "invalid verb \"0\""⟩ ∧
    ParsePrinter ("%10w".toList) = .error ⟨none, "10w".toList, "invalid verb \"0\""⟩ ∧
    ParsePrinter ("%.5w".toList) = .ok [.costs ⟨1/2, .noop⟩] := by
  refine ⟨?_, ?_, ?_⟩
  · simp [ParsePrinter, parsePrinterLoop, parseArg, parseCostFunction, ratioScanStop]
    decide
  · simp [ParsePrinter, parsePrinterLoop, parseArg, parseCostFunction, ratioScanStop,
      parseFloat, isDigitChar, digitsToNat, applyExponent]
    decide
  · simp [ParsePrinter, parsePrinterLoop, parseArg, parseCostFunction, ratioScanStop,
      parseFloat, isDigitChar, digitsToNat, applyExponent]
    norm_num

/-- C4: the claim states that a pooled buffer is held exclusively for the
whole `Print` invocation and released only on exit.  In the source the
`defer p.bwp.Put(bw)` sits inside `getWriter`, so the buffer is returned to
the pool when `getWriter` returns — before `Print` writes anything.  In the
pool model this shows as: the buffer handed out by `getWriter` is still in
the available pool of the resulting state, and a second overlapping
invocation obtains the very same buffer (id 0) as the first. -/
theorem getWriter_returns_buffer_to_pool_before_print :
    (∀ p : PoolState, (getWriter p).1 ∈ ((getWriter p).2).1) ∧
    (getWriter ([], 0)).1 = 0 ∧ (getWriter ((getWriter ([], 0)).2)).1 = 0 := by
  refine ⟨fun p => ?_, rfl, rfl⟩
  obtain ⟨avail, fresh⟩ := p
  cases avail <;> simp [getWriter, poolGet, poolPut]

/-- C6: a directive with no cost function: `%w` compiles to the identity
cost function (ratio 1, no rounding, so the transformed cost is the cost
itself), while `%N` and `%M` compile with an absent cost function and their
output lines contain only the node id (respectively `source target`) with no
cost column at all. -/
theorem absent_costFunction_defaults (fmt : ℚ → String) (g : Graph) (v : ℚ) :
    parseArg ['w'] = .ok (.costs ⟨1, .noop⟩, 1) ∧
    parseArg ['N'] = .ok (.vertices false none, 1) ∧
    parseArg ['M'] = .ok (.edges false none, 1) ∧
    costFunction.Cost ⟨1, .noop⟩ v = v ∧
    verticesOutput fmt false none g = joinSep "\n" (g.Nodes.map fun nd => toString nd.ID) ∧
    edgesOutput fmt false none g
      = joinSep "\n" (g.Edges.map fun e => toString e.Src ++ " " ++ toString e.Dst) ∧
    costsOutput fmt ⟨1, .noop⟩ g = joinSep " " (g.Nodes.map fun nd => fmt nd.Cost) := by
  refine ⟨rfl, rfl, rfl, ?_, ?_, ?_, ?_⟩
  · simp [costFunction.Cost, applyRounding]
  · exact congrArg (joinSep "\n") (List.map_congr_left fun nd _ => rfl)
  · exact congrArg (joinSep "\n") (List.map_congr_left fun e _ => rfl)
  · simp [costsOutput, costFunction.Cost, applyRounding]

/-- C7: on the empty graph every graph-iterating directive iterates zero
times and contributes zero bytes: the costs line, the node list, the edge
list and the adjacency matrix all produce the empty string, and printing the
compiled `%w` template yields an empty line.  In the embedding the
operations are total functions into strings: the only errors in the source's
apply methods are propagated writer errors, and the writer never fails. -/
theorem empty_graph_directives_empty_output (fmt : ℚ → String) (fn : costFunction)
    (cb : Bool) (c : Option costFunction) :
    costsOutput fmt fn ⟨[], []⟩ = "" ∧
    verticesOutput fmt cb c ⟨[], []⟩ = "" ∧
    edgesOutput fmt cb c ⟨[], []⟩ = "" ∧
    adjacencyMatrixOutput ⟨[], []⟩ = "" ∧
    Print fmt [.costs fn] ⟨[], []⟩ "" = "" :=
  ⟨rfl, rfl, rfl, rfl, rfl⟩

/-- C8: compilation rejects exactly the stated malformed templates with the
stated error kinds (the code carries the kind in the `Explanation` field):
the empty template fails with the EmptyTemplate error ("required to be
non-empty"), `"%"` fails with the MissingVerb error ("unexpected end"), and
`"%5z"` fails with the InvalidVerb error; each returns `Except.error`, so no
compiled template is produced. -/
theorem malformed_templates_rejected :
    ParsePrinter [] = .error ⟨none, [], "required to be non-empty"⟩ ∧
    ParsePrinter ("%".toList) = .error ⟨none, [], "unexpected end"⟩ ∧
    ParsePrinter ("%5z".toList) = .error ⟨none, "5z".toList, "invalid verb \"z\""⟩ := by
  refine ⟨rfl, rfl, ?_⟩
  simp [ParsePrinter, parsePrinterLoop, parseArg, parseCostFunction, parseFloat,
    ratioScanStop, isDigitChar, digitsToNat, applyExponent]
  decide

/-- C2 (amended): the two decoding strategies are not equivalent on every
input, but on the spec's cross-strategy example — a node with `id="3"` and
child `<cost>10</cost>` — both succeed and return bit-identical `Graph`
values. -/
theorem strategies_agree_on_spec_example :
    FromXML nodeExampleDoc = (⟨[⟨3, 10⟩], []⟩, none) ∧
    FromXMLNoStd nodeExampleDoc = (⟨[⟨3, 10⟩], []⟩, none) := by
  constructor
  · simp [FromXML, nodeExampleDoc, tokensOfForest, tokensOfTree, fromXMLLoop,
      nodeUnmarshalXML, nodeLoop, findAttribute, atoi, isDigitChar, digitsToNat,
      trimSpace, isGoSpace, parseFloat, applyExponent]
  · simp [FromXMLNoStd, nodeExampleDoc, streamForest, streamTree, fromXMLNoStdLoop,
      attrLookup, findAttribute, getChild, innerText, innerTextForest, atoi,
      isDigitChar, digitsToNat, parseFloat, applyExponent]

/-- C2 (counterexample): on the byte-identical input `<edge></edge>` the two
strategies are not equivalent: `FromXML` succeeds and returns a graph holding
one all-zero edge, while `FromXMLNoStd` fails with a missing source/target
error — they neither both fail nor both succeed. -/
theorem strategies_differ_on_childless_edge :
    FromXML edgeEmptyDoc = (⟨[], [⟨0, false, 0, 0⟩]⟩, none) ∧
    FromXMLNoStd edgeEmptyDoc = (⟨[], []⟩, some .edgeMissingSrcDst) := by
  constructor
  · simp [FromXML, edgeEmptyDoc, tokensOfForest, tokensOfTree, fromXMLLoop,
      edgeUnmarshalXML, edgeLoop, findAttribute]
  · simp [FromXMLNoStd, edgeEmptyDoc, streamForest, streamTree, fromXMLNoStdLoop,
      attrLookup, findAttribute, getChild]

/-- C3: the claim says a document whose edge lacks its `source` or `target`
child fails to decode under *both* strategies.  `FromXMLNoStd` does fail (and
returns the empty graph), but `FromXML` never checks for the presence of
these children: on `<edge><source>1</source></edge>` (no `target`) it
succeeds and returns a graph whose edge has the zero value for the missing
target, contradicting the claim and the spec's "mandatory" requirement. -/
theorem fromXML_accepts_edge_missing_target :
    FromXML edgeMissingTargetDoc = (⟨[], [⟨0, false, 1, 0⟩]⟩, none) ∧
    FromXMLNoStd edgeMissingTargetDoc = (⟨[], []⟩, some .edgeMissingSrcDst) := by
  constructor
  · simp [FromXML, edgeMissingTargetDoc, tokensOfForest, tokensOfTree, fromXMLLoop,
      edgeUnmarshalXML, edgeLoop, findAttribute, atoi, isDigitChar, digitsToNat,
      trimSpace, isGoSpace]
  · simp [FromXMLNoStd, edgeMissingTargetDoc, streamForest, streamTree,
      fromXMLNoStdLoop, attrLookup, findAttribute, getChild]

/-- C5: for every graph with unique node ids, the adjacency-matrix directive
prints exactly the claim's matrix — rows and columns in node input order,
cell `(i, j)` zero on the diagonal (even in the presence of self-loop edges)
and otherwise `1` exactly when some edge has source `i` and target `j` or is
undirected with source `j` and target `i`; and edge costs never influence
the output. -/
theorem adjacencyMatrix_matches_claim (g : Graph)
    (h : (g.Nodes.map Node.ID).Nodup) :
    adjacencyMatrixOutput g = claimAdjacencyMatrix g ∧
    (∀ f : Edge → ℚ,
      adjacencyMatrixOutput ⟨g.Nodes, g.Edges.map fun e => { e with Cost := f e }⟩
        = adjacencyMatrixOutput g) := by
  constructor
  · unfold adjacencyMatrixOutput claimAdjacencyMatrix
    rw [map_eq_range_map_getD (⟨0, 0⟩ : Node) _ g.Nodes]
    refine congrArg (joinSep "\n") (List.map_congr_left fun i hi => ?_)
    rw [map_eq_range_map_getD (⟨0, 0⟩ : Node) _ g.Nodes]
    refine congrArg (joinSep " ") (List.map_congr_left fun j hj => ?_)
    rw [List.mem_range] at hi hj
    unfold adjacencyCell claimAdjacencyCell
    have hid : ((g.Nodes.getD i ⟨0, 0⟩).ID = (g.Nodes.getD j ⟨0, 0⟩).ID) ↔ i = j := by
      rw [List.getD_eq_get _ _ hi, List.getD_eq_get _ _ hj]
      constructor
      · intro hEq
        have h₁ : (g.Nodes.map Node.ID).get ⟨i, by simpa using hi⟩
            = (g.Nodes.map Node.ID).get ⟨j, by simpa using hj⟩ := by
          simpa using hEq
        simpa using h.get_inj_iff.mp h₁
      · intro hEq; subst hEq; rfl
    by_cases hij : i = j
    · simp [hij]
    · have hne : ¬ ((g.Nodes.getD i ⟨0, 0⟩).ID == (g.Nodes.getD j ⟨0, 0⟩).ID) := by
        simpa [beq_iff_eq] using fun hc => hij (hid.mp hc)
      rw [if_neg (by simpa [beq_iff_eq] using hne)]
      simp only [if_neg hij]
      rfl
  · intro f
    unfold adjacencyMatrixOutput
    refine congrArg (joinSep "\n") (List.map_congr_left fun a _ => ?_)
    refine congrArg (joinSep " ") (List.map_congr_left fun b _ => ?_)
    unfold adjacencyCell edgeConnects
    simp [List.any_map, Function.comp]

/-- C5 witness: the spec's example graph has unique node ids and its printed
adjacency matrix agrees with the claim's matrix. -/
theorem adjacencyMatrix_matches_claim_witness :
    ((gSpecExample.Nodes.map Node.ID).Nodup) ∧
    adjacencyMatrixOutput gSpecExample = claimAdjacencyMatrix gSpecExample :=
  ⟨by decide, (adjacencyMatrix_matches_claim gSpecExample (by decide)).1⟩

/-- C10: `FromXML` trims surrounding white space (which includes all ASCII
white space) from the character data of a node's cost and an edge's cost,
source and target before numeric parsing: for any white-space padding, the
padded document decodes to the same graph as the unpadded one, so
`<source> 1 </source>` decodes successfully under that strategy. -/
theorem fromXML_trims_whitespace (ws₁ ws₂ : List Char)
    (h₁ : ∀ c ∈ ws₁, isGoSpace c = true) (h₂ : ∀ c ∈ ws₂, isGoSpace c = true) :
    FromXML (paddedDoc ws₁ ws₂) = (⟨[⟨3, 10⟩], [⟨5, false, 1, 2⟩]⟩, none) := by
  have e10 : parseFloat (trimSpace (ws₁ ++ ['1', '0'] ++ ws₂)) = some 10 := by
    rw [trimSpace_pad _ _ _ h₁ h₂ ⟨'1', ['0'], rfl, by decide⟩ ⟨'0', ['1'], rfl, by decide⟩]
    simp [parseFloat, isDigitChar, digitsToNat, applyExponent]
  have e1 : atoi (trimSpace (ws₁ ++ ['1'] ++ ws₂)) = some 1 := by
    rw [trimSpace_pad _ _ _ h₁ h₂ ⟨'1', [], rfl, by decide⟩ ⟨'1', [], rfl, by decide⟩]
    decide
  have e2 : atoi (trimSpace (ws₁ ++ ['2'] ++ ws₂)) = some 2 := by
    rw [trimSpace_pad _ _ _ h₁ h₂ ⟨'2', [], rfl, by decide⟩ ⟨'2', [], rfl, by decide⟩]
    decide
  have e5 : parseFloat (trimSpace (ws₁ ++ ['5'] ++ ws₂)) = some 5 := by
    rw [trimSpace_pad _ _ _ h₁ h₂ ⟨'5', [], rfl, by decide⟩ ⟨'5', [], rfl, by decide⟩]
    simp [parseFloat, isDigitChar, digitsToNat, applyExponent]
  show fromXMLLoop 17 ⟨[], []⟩
      [.start "node" [("id", "3")], .start "cost" [],
       .cdata (String.mk (ws₁ ++ ['1', '0'] ++ ws₂)), .close "cost", .close "node",
       .start "edge" [], .start "source" [],
       .cdata (String.mk (ws₁ ++ ['1'] ++ ws₂)), .close "source",
       .start "target" [], .cdata (String.mk (ws₁ ++ ['2'] ++ ws₂)), .close "target",
       .start "cost" [], .cdata (String.mk (ws₁ ++ ['5'] ++ ws₂)), .close "cost",
       .close "edge"] = _
  exact fromXMLPadEval _ _ _ _ e10 e1 e2 e5

/-- C10 witness: with a single space on the left and a space plus a tab on
the right of every numeric text, the padded document decodes to the expected
graph. -/
theorem fromXML_trims_whitespace_witness :
    (∀ c ∈ [' '], isGoSpace c = true) ∧ (∀ c ∈ [' ', '\t'], isGoSpace c = true) ∧
    FromXML (paddedDoc [' '] [' ', '\t']) = (⟨[⟨3, 10⟩], [⟨5, false, 1, 2⟩]⟩, none) :=
  ⟨by decide, by decide, fromXML_trims_whitespace [' '] [' ', '\t'] (by decide) (by decide)⟩

/-- C9: printing is deterministic and keeps no hidden state: for any
compiled operation list and graph, two invocations writing to two separate
sinks append the very same bytes to each sink. -/
theorem print_output_depends_only_on_template_and_graph (fmt : ℚ → String)
    (ops : List Operation) (g : Graph) (sink₁ sink₂ : String) :
    ∃ out : String, Print fmt ops g sink₁ = sink₁ ++ out ∧
      Print fmt ops g sink₂ = sink₂ ++ out :=
  ⟨Print fmt ops g "", Print_sink_append fmt g ops sink₁, Print_sink_append fmt g ops sink₂⟩

end XmlToGraph
